import Mathlib

/-!
Shallow embedding of genewalk/perform_statistics.py (class GeneWalk):
the empirical p-value lookup against a connectivity-stratified null
distribution (P_sim), the per-gene Benjamini-Hochberg correction
(get_GO_df, via statsmodels.stats.multitest.fdrcorrection with
method indep), and the replicate aggregation (generate_output,
human-genes branch).  Python floats are modelled as rationals;
standard-error columns are carried as their squares (variance divided
by Nreps) because square roots leave the rationals; equality and
order of the nonnegative sem values are preserved by squaring.
-/

/-- Decidable equality of Except values, for evaluating the model on
concrete inputs. -/
instance {ε α : Type} [DecidableEq ε] [DecidableEq α] :
    DecidableEq (Except ε α) := fun a b =>
  match a, b with
  | Except.ok x, Except.ok y =>
    if h : x = y then isTrue (by rw [h]) else isFalse (by simp [h])
  | Except.error e, Except.error f =>
    if h : e = f then isTrue (by rw [h]) else isFalse (by simp [h])
  | Except.ok _, Except.error _ => isFalse (by simp)
  | Except.error _, Except.ok _ => isFalse (by simp)

namespace Genewalk

/-- Python exception kinds arising on the modelled code paths.  The
node loop of generate_output catches KeyError only; every other
exception propagates and aborts the run. -/
inductive PyErr where
  | keyError
  | zeroDivisionError
deriving DecidableEq, Repr

/-- Key of the null-distribution dict srd, modelling the string
d + str(np.floor(np.log2(N_con))): for N_con ≥ 1 the floor of the
base-two logarithm, while np.log2(0) returns -inf (a RuntimeWarning,
not an exception), producing the key d-inf. -/
inductive DistKey where
  | d (k : ℕ)
  | dNegInf
deriving DecidableEq, Repr

/-- Fuel-structured floor of the base-two logarithm (fuel makes the
recursion structural so concrete runs reduce in the kernel); equal to
Nat.log2, see flog2_eq_log2. -/
def flog2Aux : ℕ → ℕ → ℕ
  | 0, _ => 0
  | fuel + 1, n => if n < 2 then 0 else flog2Aux fuel (n / 2) + 1

/-- floor(log2 n), the value of np.floor(np.log2(n)) for n ≥ 1. -/
def flog2 (n : ℕ) : ℕ := flog2Aux n n

/-- dist_key = 'd'+str(np.floor(np.log2(N_con))) in P_sim. -/
def distKeyOf (N_con : ℕ) : DistKey :=
  if N_con = 0 then DistKey.dNegInf else DistKey.d (flog2 N_con)

/-- np.searchsorted(a, v, side='left') on an ascending-sorted list:
the left insertion position, the length of the maximal prefix of
values strictly below v. -/
def searchsorted_left (a : List ℚ) (v : ℚ) : ℕ :=
  (a.takeWhile (fun x => decide (x < v))).length

/-- GeneWalk.P_sim: empirical p-value of observed similarity sim at
connectivity N_con.  A bucket key absent from srd raises KeyError; an
empty sample makes float(RANK)/len(...) raise ZeroDivisionError. -/
def P_sim (srd : DistKey → Option (List ℚ)) (sim : ℚ) (N_con : ℕ) :
    Except PyErr ℚ :=
  match srd (distKeyOf N_con) with
  | none => Except.error PyErr.keyError
  | some dist =>
    if dist.length = 0 then Except.error PyErr.zeroDivisionError
    else Except.ok (1 - (searchsorted_left dist sim : ℚ) / dist.length)

/-- pvals_sorted / ecdffactor in statsmodels fdrcorrection: each entry
of the ascending p-value list times m divided by its one-based rank;
the argument i is the zero-based rank of the head of the list. -/
def bhRaw (m : ℕ) : ℕ → List ℚ → List ℚ
  | _, [] => []
  | i, p :: rest => p * m / (i + 1) :: bhRaw m (i + 1) rest

/-- np.minimum.accumulate(xs[::-1])[::-1]: entry i becomes the minimum
of the suffix of xs starting at i. -/
def minAccumRight : List ℚ → List ℚ
  | [] => []
  | a :: rest =>
    match minAccumRight rest with
    | [] => [a]
    | b :: t => min a b :: b :: t

/-- pvals_corrected[pvals_corrected > 1] = 1. -/
def clipAbove1 (l : List ℚ) : List ℚ :=
  l.map (fun q => if 1 < q then 1 else q)

/-- np.argsort of the p-value list, modelled as a stable sort of the
index range (a comparison sort by the same key models np.argsort:
numpy's tie order is unspecified, but the adjusted values produced
downstream are tie-insensitive, equal raw p-values always receiving
equal adjusted values, so any argsort yields the same fdrcorrection
result). -/
def argsortStable (ps : List ℚ) : List ℕ :=
  (List.range ps.length).insertionSort (fun i j => ps.getD i 0 ≤ ps.getD j 0)

/-- First index holding k (length if absent); used to invert the
argsort permutation when scattering the adjusted values back to the
original order. -/
def idxOf {α : Type} [DecidableEq α] (k : α) : List α → ℕ
  | [] => 0
  | a :: rest => if a = k then 0 else idxOf k rest + 1

/-- statsmodels.stats.multitest.fdrcorrection with method indep:
Benjamini-Hochberg adjusted p-values returned in the original order
(pvals_corrected_[pvals_sortind] = pvals_corrected).  The boolean
reject vector statsmodels also returns is unused by the caller and is
not modelled. -/
def fdrcorrection (ps : List ℚ) : List ℚ :=
  let sortind := argsortStable ps
  let sorted := sortind.map (fun i => ps.getD i 0)
  let corrected := clipAbove1 (minAccumRight (bhRaw ps.length 0 sorted))
  (List.range ps.length).map (fun k => corrected.getD (idxOf k sortind) 0)

/-- The GeneWalk network as consumed by the scorer: the node list
(g_view iteration order) and per-node lookups.  hgnc and name model
the node attribute dicts (none stands for a KeyError on access), isGO
marks membership in GO_nodes = set(nx.get_node_attributes(graph,'GO')),
and adj n models the MultiGraph adjacency view self.graph[n], keyed by
distinct neighbours, whose length is N_con. -/
structure Graph where
  nodes : List String
  hgnc : String → Option String
  isGO : String → Bool
  name : String → Option String
  adj : String → List String

/-- One row of the data frame returned by get_GO_df: columns
GO description, GO:ID, N_con(GO), similarity, pval, padj. -/
structure GORow where
  GOdescription : String
  GOID : String
  Ncon_GO : ℕ
  similarity : ℚ
  pval : ℚ
  padj : ℚ
deriving DecidableEq, Repr

/-- Loop body of get_GO_df for one candidate similarity row: degree of
the GO node, its name attribute (KeyError when absent) and the raw
p-value from P_sim at min(N_GO_con, N_gene_con). -/
def scoreCandidate (G : Graph) (srd : DistKey → Option (List ℚ))
    (N_gene_con : ℕ) (p : String × ℚ) :
    Except PyErr (String × String × ℕ × ℚ × ℚ) :=
  match G.name p.1 with
  | none => Except.error PyErr.keyError
  | some des =>
    match P_sim srd p.2 (min ((G.adj p.1).length) N_gene_con) with
    | Except.error e => Except.error e
    | Except.ok pval =>
      Except.ok (des, p.1, (G.adj p.1).length, p.2, pval)

/-- The for i in simdf.index loop of get_GO_df: score the candidates
in order, the first exception aborting the loop. -/
def scoreAll (G : Graph) (srd : DistKey → Option (List ℚ))
    (N_gene_con : ℕ) :
    List (String × ℚ) → Except PyErr (List (String × String × ℕ × ℚ × ℚ))
  | [] => Except.ok []
  | p :: rest =>
    match scoreCandidate G srd N_gene_con p with
    | Except.error e => Except.error e
    | Except.ok r =>
      match scoreAll G srd N_gene_con rest with
      | Except.error e => Except.error e
      | Except.ok rs => Except.ok (r :: rs)

/-- GeneWalk.get_GO_df: restrict the replicate's full similarity
ranking (nv geneoi models self.nv.most_similar(geneoi, topn = vocab
size); none stands for the KeyError gensim raises for a gene missing
from the embedding) to the GO terms connected to the gene, score each
candidate, adjust the p-value column with fdrcorrection, and filter by
padj < alpha_FDR when alpha_FDR < 1.  The intersection with GO_nodes
is a filter of the neighbour list because every neighbour is a graph
node. -/
def get_GO_df (G : Graph) (nv : String → Option (List (String × ℚ)))
    (srd : DistKey → Option (List ℚ)) (geneoi : String)
    (N_gene_con : ℕ) (alpha_FDR : ℚ) : Except PyErr (List GORow) :=
  match nv geneoi with
  | none => Except.error PyErr.keyError
  | some sims =>
    let GO_con2gene := (G.adj geneoi).filter (fun x => G.isGO x)
    let simdf := sims.filter (fun p => GO_con2gene.contains p.1)
    match scoreAll G srd N_gene_con simdf with
    | Except.error e => Except.error e
    | Except.ok pre =>
      let qs := fdrcorrection (pre.map (fun r => r.2.2.2.2))
      let full := (pre.zip qs).map (fun pq =>
        { GOdescription := pq.1.1, GOID := pq.1.2.1,
          Ncon_GO := pq.1.2.2.1, similarity := pq.1.2.2.2.1,
          pval := pq.1.2.2.2.2, padj := pq.2 : GORow })
      if alpha_FDR < 1 then
        Except.ok (full.filter (fun r => decide (r.padj < alpha_FDR)))
      else Except.ok full

/-- Identity columns shared by the per-replicate tables, the human
COLUMNS join keys of the merge: HGNC, Symbol, GO description, GO:ID,
N_con(gene), N_con(GO). -/
structure RowKey where
  HGNC : String
  Symbol : String
  GOdescription : String
  GOID : String
  Ncon_gene : ℕ
  Ncon_GO : ℕ
deriving DecidableEq, Repr

/-- One row of a per-replicate output table. -/
structure RepRow where
  key : RowKey
  similarity : ℚ
  pval : ℚ
  padj : ℚ
deriving DecidableEq, Repr

/-- Body of the for n in g_view loop of generate_output, human-genes
branch: read the HGNC node attribute (KeyError when absent), skip
nodes whose id is not in the input list, otherwise score through
get_GO_df and prepend the identity columns. -/
def scoreNode (G : Graph) (nv : String → Option (List (String × ℚ)))
    (srd : DistKey → Option (List ℚ)) (hgncid : List String)
    (alpha_FDR : ℚ) (n : String) : Except PyErr (List RepRow) :=
  match G.hgnc n with
  | none => Except.error PyErr.keyError
  | some hid =>
    if hgncid.contains hid then
      match get_GO_df G nv srd n ((G.adj n).length) alpha_FDR with
      | Except.error e => Except.error e
      | Except.ok rows => Except.ok (rows.map (fun r =>
          { key := { HGNC := hid, Symbol := n,
                     GOdescription := r.GOdescription, GOID := r.GOID,
                     Ncon_gene := (G.adj n).length, Ncon_GO := r.Ncon_GO },
            similarity := r.similarity, pval := r.pval, padj := r.padj }))
    else Except.ok []

/-- Accumulation of one replicate table over the graph nodes with the
source's except KeyError: pass — a KeyError while scoring a node skips
that node and the loop continues; any other exception propagates and
aborts. -/
def repTable (G : Graph) (nv : String → Option (List (String × ℚ)))
    (srd : DistKey → Option (List ℚ)) (hgncid : List String)
    (alpha_FDR : ℚ) : List String → Except PyErr (List RepRow)
  | [] => Except.ok []
  | n :: rest =>
    match scoreNode G nv srd hgncid alpha_FDR n with
    | Except.error PyErr.keyError => repTable G nv srd hgncid alpha_FDR rest
    | Except.error e => Except.error e
    | Except.ok rows =>
      match repTable G nv srd hgncid alpha_FDR rest with
      | Except.error e => Except.error e
      | Except.ok acc => Except.ok (rows ++ acc)

/-- One lexicographic comparison step of a multi-column sort_values:
strictly-less on this column decides, ties fall through to the
remaining columns. -/
def lexStep {α : Type} [LinearOrder α] (x y : α) (rest : Bool) : Bool :=
  if x < y then true else if y < x then false else rest

/-- First occurrences in order, modelling pd.Series(hgncid).unique()
used as the ordered category list. -/
def uniqueFirst {α : Type} [DecidableEq α] : List α → List α
  | [] => []
  | a :: rest => a :: (uniqueFirst rest).filter (fun x => decide (x ≠ a))

/-- Category code of a gene id in the ordered categorical built from
the input gene list: its position among the first occurrences. -/
def catRank (cats : List String) (x : String) : ℕ :=
  idxOf x (uniqueFirst cats)

/-- Comparator of the per-replicate sort_values(by=['HGNC','Symbol',
'GO:ID']) with HGNC as input-ordered categorical. -/
def repLE (hgncid : List String) (a b : RepRow) : Bool :=
  lexStep (catRank hgncid a.key.HGNC) (catRank hgncid b.key.HGNC)
    (lexStep a.key.Symbol b.key.Symbol
      (decide (a.key.GOID ≤ b.key.GOID)))

/-- A row of the outer-merged frame: per replicate, the measurement is
some value when that replicate produced the row and none (NaN)
otherwise. -/
structure MergedRow where
  key : RowKey
  sims : List (Option ℚ)
  pvals : List (Option ℚ)
  padjs : List (Option ℚ)
deriving DecidableEq, Repr

/-- outdfs[Nreps+1] = copy.deepcopy(outdfs[1]): the first replicate
table viewed as a merged frame of width one. -/
def initMerged (t : List RepRow) : List MergedRow :=
  t.map (fun r => { key := r.key, sims := [some r.similarity],
                    pvals := [some r.pval], padjs := [some r.padj] })

/-- One pandas merge(..., on=COLUMNS, how='outer') with the next
replicate table.  Join keys are unique within each table in this
pipeline (each graph node is visited once and most_similar lists every
node once), so a key matches at most one row: left rows keep their
order and gain the matching measurements or NaN, unmatched right rows
are appended with NaN in the width columns already merged. -/
def mergeStep (width : ℕ) (acc : List MergedRow) (t : List RepRow) :
    List MergedRow :=
  let matched := acc.map (fun m =>
    match t.find? (fun r => decide (r.key = m.key)) with
    | some r =>
      { m with sims := (m.sims ++ [some r.similarity]),
               pvals := (m.pvals ++ [some r.pval]),
               padjs := (m.padjs ++ [some r.padj]) }
    | none =>
      { m with sims := (m.sims ++ [none]),
               pvals := (m.pvals ++ [none]),
               padjs := (m.padjs ++ [none]) })
  let newRows := (t.filter (fun r =>
      ! acc.any (fun m => decide (m.key = r.key)))).map (fun r =>
    { key := r.key,
      sims := (List.replicate width none ++ [some r.similarity]),
      pvals := (List.replicate width none ++ [some r.pval]),
      padjs := (List.replicate width none ++ [some r.padj]) : MergedRow })
  matched ++ newRows

/-- Fold of mergeStep over the replicate tables after the first. -/
def mergeAll : ℕ → List MergedRow → List (List RepRow) → List MergedRow
  | _, acc, [] => acc
  | width, acc, t :: rest => mergeAll (width + 1) (mergeStep width acc t) rest

/-- Values of the non-NaN cells of one merged measurement column. -/
def presentVals (xs : List (Option ℚ)) : List ℚ := xs.filterMap id

/-- pandas DataFrame.mean(axis=1): NaN-skipping mean, NaN when no
value is present. -/
def nanmean (xs : List (Option ℚ)) : Option ℚ :=
  let v := presentVals xs
  if v.length = 0 then none else some (v.sum / v.length)

/-- Square of pandas DataFrame.std(axis=1), the NaN-skipping sample
standard deviation with ddof = 1: NaN when fewer than two values are
present. -/
def nanstdSq (xs : List (Option ℚ)) : Option ℚ :=
  let v := presentVals xs
  if v.length ≤ 1 then none
  else some ((v.map (fun x => (x - v.sum / v.length) ^ 2)).sum /
             ((v.length : ℚ) - 1))

/-- Square of the sem columns of generate_output: the source divides
the NaN-skipping std by np.sqrt(self.Nreps), so the squared sem is the
sample variance over the present replicates divided by Nreps. -/
def semSq (Nreps : ℕ) (xs : List (Option ℚ)) : Option ℚ :=
  (nanstdSq xs).map (fun s => s / Nreps)

/-- Final output row after the mean and sem column inserts and the
drop of the per-replicate columns; sem columns carried as squares. -/
structure AggRow where
  key : RowKey
  meanSim : Option ℚ
  semSimSq : Option ℚ
  meanPval : Option ℚ
  semPvalSq : Option ℚ
  meanPadj : Option ℚ
  semPadjSq : Option ℚ
deriving DecidableEq, Repr

/-- The six inserted statistics columns of one merged row. -/
def aggStats (Nreps : ℕ) (m : MergedRow) : AggRow :=
  { key := m.key,
    meanSim := nanmean m.sims, semSimSq := semSq Nreps m.sims,
    meanPval := nanmean m.pvals, semPvalSq := semSq Nreps m.pvals,
    meanPadj := nanmean m.padjs, semPadjSq := semSq Nreps m.padjs }

/-- pandas sorts NaN keys last: a missing mean ranks after any
present value. -/
def noneLastRank (o : Option ℚ) : ℕ :=
  match o with
  | some _ => 0
  | none => 1

/-- Numeric part of an Option sort key. -/
def optVal (o : Option ℚ) : ℚ := o.getD 0

/-- Comparator of the final sort_values(by=['HGNC','mean:padj',
'GO description']) with HGNC as ordered categorical following the
input gene list. -/
def finalLE (hgncid : List String) (a b : AggRow) : Bool :=
  lexStep (catRank hgncid a.key.HGNC) (catRank hgncid b.key.HGNC)
    (lexStep (noneLastRank a.meanPadj) (noneLastRank b.meanPadj)
      (lexStep (optVal a.meanPadj) (optVal b.meanPadj)
        (decide (a.key.GOdescription ≤ b.key.GOdescription))))

/-- The for rep in range(1, Nreps+1) loop of generate_output: one
sorted table per replicate embedding, the first uncaught exception
aborting the run. -/
def allRepTables (G : Graph) (srd : DistKey → Option (List ℚ))
    (hgncid : List String) (alpha_FDR : ℚ) :
    List (String → Option (List (String × ℚ))) →
      Except PyErr (List (List RepRow))
  | [] => Except.ok []
  | nv :: rest =>
    match repTable G nv srd hgncid alpha_FDR G.nodes with
    | Except.error e => Except.error e
    | Except.ok t =>
      match allRepTables G srd hgncid alpha_FDR rest with
      | Except.error e => Except.error e
      | Except.ok ts =>
        Except.ok ((t.insertionSort (fun a b => repLE hgncid a b = true)) :: ts)

/-- GeneWalk.generate_output, human-genes branch: build one sorted
table per replicate embedding over all graph nodes (a KeyError skips
the node, any other error aborts the run), outer-merge the tables on
the identity columns, insert the mean and sem statistics, and sort the
final frame by the input-ordered gene categorical, mean:padj and GO
description. -/
def generate_output (G : Graph) (hgncid : List String)
    (nvs : List (String → Option (List (String × ℚ))))
    (srd : DistKey → Option (List ℚ)) (alpha_FDR : ℚ) :
    Except PyErr (List AggRow) :=
  match allRepTables G srd hgncid alpha_FDR nvs with
  | Except.error e => Except.error e
  | Except.ok tables =>
    let Nreps := nvs.length
    let merged :=
      match tables with
      | [] => []
      | t :: rest => mergeAll 1 (initMerged t) rest
    Except.ok ((merged.map (aggStats Nreps)).insertionSort
      (fun a b => finalLE hgncid a b = true))

/-- Definition following the specification sentence, for comparison
with semSq: standard deviation over the present replicates divided by
the square root of n_present, carried as a square like semSq. -/
def specSemSq (xs : List (Option ℚ)) : Option ℚ :=
  (nanstdSq xs).map (fun s => s / (presentVals xs).length)

/-- Manual post-hoc filter of a final table at threshold t on the mean
q-value column; a row with missing mean is dropped, as the pandas
comparison NaN < t is False. -/
def meanPadjBelow (t : ℚ) (a : AggRow) : Bool :=
  match a.meanPadj with
  | some q => decide (q < t)
  | none => false

/-- Null distribution used by concrete checks of P_sim: a single
sorted sample of three values in bucket d1. -/
def srdW : DistKey → Option (List ℚ) :=
  fun k => if k = DistKey.d 1 then some [0, 1/2, 1] else none

/-- Concrete network with one gene of interest connected to one GO
term. -/
def Gpair : Graph :=
  { nodes := ["G1s", "GO:1"],
    hgnc := fun n => if n = "G1s" then some "H1" else none,
    isGO := fun n => n = "GO:1",
    name := fun n => if n = "GO:1" then some "d1" else none,
    adj := fun n =>
      if n = "G1s" then ["GO:1"]
      else if n = "GO:1" then ["G1s"] else [] }

/-- Embedding giving the single candidate similarity one half. -/
def nvHalf : String → Option (List (String × ℚ)) :=
  fun g => if g = "G1s" then some [("GO:1", 1/2)] else none

/-- Null distribution with the two-point sample 0, 1 in bucket d0. -/
def srd01 : DistKey → Option (List ℚ) :=
  fun k => if k = DistKey.d 0 then some [0, 1] else none

/-- First replicate embedding of the two-replicate scenario. -/
def nvHi : String → Option (List (String × ℚ)) :=
  fun g => if g = "G1s" then some [("GO:1", 9/10)] else none

/-- Second replicate embedding of the two-replicate scenario. -/
def nvLo : String → Option (List (String × ℚ)) :=
  fun g => if g = "G1s" then some [("GO:1", 1/10)] else none

/-- Null distribution with a five-point sample in bucket d0. -/
def srd5 : DistKey → Option (List ℚ) :=
  fun k => if k = DistKey.d 0 then some [0, 1/5, 2/5, 3/5, 4/5] else none

/-- Concrete network with one gene of interest connected to two GO
terms. -/
def Gtwo : Graph :=
  { nodes := ["G1s", "GO:1", "GO:2"],
    hgnc := fun n => if n = "G1s" then some "H1" else none,
    isGO := fun n => n = "GO:1" ∨ n = "GO:2",
    name := fun n =>
      if n = "GO:1" then some "d1"
      else if n = "GO:2" then some "d2" else none,
    adj := fun n =>
      if n = "G1s" then ["GO:1", "GO:2"]
      else if n = "GO:1" then ["G1s"]
      else if n = "GO:2" then ["G1s"] else [] }

/-- Embedding for Gtwo with a high and a low candidate similarity. -/
def nvTwo : String → Option (List (String × ℚ)) :=
  fun g => if g = "G1s" then some [("GO:1", 9/10), ("GO:2", 1/10)] else none

/-- Concrete network with two genes of interest sharing one GO
term. -/
def G2g : Graph :=
  { nodes := ["G1s", "G2s", "GO:1"],
    hgnc := fun n =>
      if n = "G1s" then some "H1"
      else if n = "G2s" then some "H2" else none,
    isGO := fun n => n = "GO:1",
    name := fun n => if n = "GO:1" then some "d1" else none,
    adj := fun n =>
      if n = "G1s" then ["GO:1"]
      else if n = "G2s" then ["GO:1"]
      else if n = "GO:1" then ["G1s", "G2s"] else [] }

/-- Embedding for G2g in which the second gene of interest is absent
from the vocabulary (most_similar raises KeyError for it). -/
def nvMiss : String → Option (List (String × ℚ)) :=
  fun g => if g = "G1s" then some [("GO:1", 1/2)] else none

/-- Embedding for G2g covering both genes of interest. -/
def nvBoth : String → Option (List (String × ℚ)) :=
  fun g =>
    if g = "G1s" then some [("GO:1", 1/2)]
    else if g = "G2s" then some [("GO:1", 1/4)] else none

/-- Identity columns of the concrete single-candidate row. -/
def keyA : RowKey :=
  { HGNC := "H1", Symbol := "G1s", GOdescription := "d1",
    GOID := "GO:1", Ncon_gene := 1, Ncon_GO := 1 }

/-- Merged row present in two of three replicates. -/
def mrowPartial : MergedRow :=
  { key := keyA, sims := [some 0, some 2, none],
    pvals := [some 0, some 2, none], padjs := [some 0, some 2, none] }

/-- Merged row present in both of two replicates. -/
def mrowFull : MergedRow :=
  { key := keyA, sims := [some 0, some 1],
    pvals := [some 0, some 1], padjs := [some 0, some 1] }

/-- Merged row present in one of two replicates. -/
def mrowSingle : MergedRow :=
  { key := keyA, sims := [some (1/2), none],
    pvals := [some (1/3), none], padjs := [some (1/4), none] }

/-- Concrete network whose gene of interest has no neighbours at
all, hence no connected GO terms. -/
def Gnone : Graph :=
  { nodes := ["G1s"],
    hgnc := fun n => if n = "G1s" then some "H1" else none,
    isGO := fun _ => false,
    name := fun _ => none,
    adj := fun _ => [] }

/-- Embedding whose vocabulary contains the isolated gene. -/
def nvNone : String → Option (List (String × ℚ)) :=
  fun g => if g = "G1s" then some [] else none

/-! Lemmas about the empirical p-value lookup. -/

theorem searchsorted_left_eq_countP {v : List ℚ} {s : ℚ}
    (hsort : v.Sorted (· ≤ ·)) :
    searchsorted_left v s = v.countP (fun x => decide (x < s)) := by
  unfold searchsorted_left
  induction v with
  | nil => rfl
  | cons a t ih =>
    rcases List.pairwise_cons.mp hsort with ⟨ha, ht⟩
    by_cases h : a < s
    · simp [List.takeWhile_cons, List.countP_cons, h, ih ht]
    · have hz : t.countP (fun x => decide (x < s)) = 0 := by
        rw [List.countP_eq_zero]
        intro x hx
        simp only [decide_eq_true_eq]
        exact fun hlt => h (lt_of_le_of_lt (ha x hx) hlt)
      simp [List.takeWhile_cons, List.countP_cons, h, hz]

theorem searchsorted_left_le_length (v : List ℚ) (s : ℚ) :
    searchsorted_left v s ≤ v.length :=
  (List.takeWhile_sublist _).length_le

theorem searchsorted_left_mono {s2 s1 : ℚ} (h : s2 ≤ s1) (v : List ℚ) :
    searchsorted_left v s2 ≤ searchsorted_left v s1 := by
  unfold searchsorted_left
  induction v with
  | nil => exact Nat.le_refl 0
  | cons a t ih =>
    by_cases ha : a < s2
    · have ha1 : a < s1 := lt_of_lt_of_le ha h
      simp only [List.takeWhile_cons, decide_eq_true ha,
        decide_eq_true ha1, List.length_cons]
      exact Nat.succ_le_succ ih
    · simp only [List.takeWhile_cons, decide_eq_false ha]
      exact Nat.zero_le _

theorem P_sim_ok_bounds {srd : DistKey → Option (List ℚ)} {s : ℚ} {n : ℕ}
    {p : ℚ} (h : P_sim srd s n = Except.ok p) : 0 ≤ p ∧ p ≤ 1 := by
  unfold P_sim at h
  rcases hv : srd (distKeyOf n) with _ | dist
  · rw [hv] at h; simp at h
  · rw [hv] at h
    dsimp only at h
    by_cases hlen : dist.length = 0
    · rw [if_pos hlen] at h; simp at h
    · rw [if_neg hlen] at h
      simp only [Except.ok.injEq] at h
      subst h
      have hL : (0 : ℚ) < dist.length := by
        exact_mod_cast Nat.pos_of_ne_zero hlen
      constructor
      · rw [sub_nonneg, div_le_one hL]
        exact_mod_cast searchsorted_left_le_length dist s
      · have hd : (0 : ℚ) ≤ (searchsorted_left dist s : ℚ) / dist.length :=
          div_nonneg (Nat.cast_nonneg _) (le_of_lt hL)
        linarith

/-- C1: for an observed similarity s and a bucket whose null sample is
a sorted nonempty sequence v, P_sim returns 1 - rank/len(v), where
rank is the left-insertion position of s in v, equal to the count of
sampled values strictly below s, and the value lies in the unit
interval. -/
theorem P_sim_empirical_pvalue (srd : DistKey → Option (List ℚ)) (s : ℚ)
    (n : ℕ) (v : List ℚ) (hv : srd (distKeyOf n) = some v)
    (hsort : v.Sorted (· ≤ ·)) (hlen : 0 < v.length) :
    P_sim srd s n =
      Except.ok (1 - (v.countP (fun x => decide (x < s)) : ℚ) / v.length) ∧
    0 ≤ 1 - (v.countP (fun x => decide (x < s)) : ℚ) / v.length ∧
    1 - (v.countP (fun x => decide (x < s)) : ℚ) / v.length ≤ 1 := by
  have hev : P_sim srd s n =
      Except.ok (1 - (v.countP (fun x => decide (x < s)) : ℚ) / v.length) := by
    unfold P_sim
    rw [hv]
    dsimp only
    rw [if_neg (Nat.pos_iff_ne_zero.mp hlen),
      searchsorted_left_eq_countP hsort]
  refine ⟨hev, (P_sim_ok_bounds hev).1, (P_sim_ok_bounds hev).2⟩

/-- Closed instance of P_sim_empirical_pvalue at a concrete bucket. -/
theorem P_sim_empirical_pvalue_witness :
    P_sim srdW (3/4) 2 =
      Except.ok (1 - (([0, 1/2, 1] : List ℚ).countP
        (fun x => decide (x < 3/4)) : ℚ) / ([0, 1/2, 1] : List ℚ).length) ∧
    0 ≤ 1 - (([0, 1/2, 1] : List ℚ).countP
        (fun x => decide (x < 3/4)) : ℚ) / ([0, 1/2, 1] : List ℚ).length ∧
    1 - (([0, 1/2, 1] : List ℚ).countP
        (fun x => decide (x < 3/4)) : ℚ) / ([0, 1/2, 1] : List ℚ).length ≤ 1 :=
  P_sim_empirical_pvalue srdW (3/4) 2 [0, 1/2, 1] rfl
    (by with_unfolding_all decide) (by decide)

/-- C7: for a fixed bucket, the p-value is non-increasing in the
observed similarity: s1 > s2 forces p1 ≤ p2. -/
theorem P_sim_antitone (srd : DistKey → Option (List ℚ)) (s1 s2 : ℚ)
    (n : ℕ) (p1 p2 : ℚ) (hs : s2 < s1)
    (h1 : P_sim srd s1 n = Except.ok p1)
    (h2 : P_sim srd s2 n = Except.ok p2) : p1 ≤ p2 := by
  unfold P_sim at h1 h2
  rcases hv : srd (distKeyOf n) with _ | dist
  · rw [hv] at h1; simp at h1
  · rw [hv] at h1 h2
    dsimp only at h1 h2
    by_cases hlen : dist.length = 0
    · rw [if_pos hlen] at h1; simp at h1
    · rw [if_neg hlen] at h1 h2
      simp only [Except.ok.injEq] at h1 h2
      subst h1
      subst h2
      have hL : (0 : ℚ) < dist.length := by
        exact_mod_cast Nat.pos_of_ne_zero hlen
      have hr : searchsorted_left dist s2 ≤ searchsorted_left dist s1 :=
        searchsorted_left_mono (le_of_lt hs) dist
      have hdiv : (searchsorted_left dist s2 : ℚ) / dist.length ≤
          (searchsorted_left dist s1 : ℚ) / dist.length :=
        (div_le_div_iff_of_pos_right hL).mpr (by exact_mod_cast hr)
      linarith

/-- Closed instance of P_sim_antitone at a concrete bucket. -/
theorem P_sim_antitone_witness :
    (1/4 : ℚ) < 3/4 ∧
    P_sim srdW (3/4) 2 = Except.ok (1/3) ∧
    P_sim srdW (1/4) 2 = Except.ok (2/3) ∧
    (1/3 : ℚ) ≤ 2/3 :=
  ⟨by norm_num, by with_unfolding_all decide, by with_unfolding_all decide,
    P_sim_antitone srdW (3/4) (1/4) 2 (1/3) (2/3) (by norm_num)
      (by with_unfolding_all decide) (by with_unfolding_all decide)⟩

/-! Lemmas about the Benjamini-Hochberg machinery of fdrcorrection. -/

theorem getD_eq_getElem_of_lt {α : Type} (l : List α) (d : α) {i : ℕ}
    (h : i < l.length) : l.getD i d = l[i] := by
  simp [List.getD_eq_getElem?_getD, List.getElem?_eq_getElem h]

theorem getD_map_of_lt {α β : Type} (f : α → β) (l : List α) {i : ℕ}
    (h : i < l.length) (d : β) : (l.map f).getD i d = f l[i] := by
  have h2 : i < (l.map f).length := by simpa using h
  rw [getD_eq_getElem_of_lt _ d h2, List.getElem_map]

theorem bhRaw_length (m : ℕ) : ∀ (i : ℕ) (l : List ℚ),
    (bhRaw m i l).length = l.length
  | _, [] => rfl
  | i, p :: rest => by
    simp [bhRaw, bhRaw_length m (i + 1) rest]

theorem minAccumRight_length : ∀ (l : List ℚ),
    (minAccumRight l).length = l.length
  | [] => rfl
  | a :: rest => by
    have ih := minAccumRight_length rest
    cases hmar : minAccumRight rest with
    | nil =>
      rw [hmar] at ih
      simp only [minAccumRight, hmar]
      simp at ih
      simp [ih]
    | cons b t =>
      rw [hmar] at ih
      simp only [minAccumRight, hmar]
      simp only [List.length_cons] at ih
      simp [ih]

theorem clipAbove1_length (l : List ℚ) :
    (clipAbove1 l).length = l.length := by
  simp [clipAbove1]

theorem bhRaw_getD (m : ℕ) : ∀ (l : List ℚ) (i0 j : ℕ), j < l.length →
    (bhRaw m i0 l).getD j 0 =
      l.getD j 0 * (m : ℚ) / ((i0 : ℚ) + (j : ℚ) + 1)
  | [], _, j, hj => by simp at hj
  | p :: rest, i0, 0, _ => by
    simp [bhRaw]
  | p :: rest, i0, j + 1, hj => by
    have hj2 : j < rest.length := by
      simpa using Nat.lt_of_succ_lt_succ hj
    have ih := bhRaw_getD m rest (i0 + 1) j hj2
    simp only [bhRaw, List.getD_cons_succ, ih]
    have hc : ((i0 : ℚ) + 1) + (j : ℚ) + 1 = (i0 : ℚ) + ((j : ℚ) + 1) + 1 := by
      ring
    push_cast
    rw [hc]

theorem minAccumRight_getD_ge : ∀ (xs : List ℚ) (i : ℕ), i < xs.length →
    ∀ (c : ℚ), (∀ j, i ≤ j → j < xs.length → c ≤ xs.getD j 0) →
    c ≤ (minAccumRight xs).getD i 0
  | [], i, hi, _, _ => by simp at hi
  | a :: rest, i, hi, c, h => by
    have hlen := minAccumRight_length rest
    cases hmar : minAccumRight rest with
    | nil =>
      have hrest : rest = [] := by
        rw [hmar] at hlen
        simpa using (List.length_eq_zero.mp hlen.symm)
      subst hrest
      have hi0 : i = 0 := by simpa using hi
      subst hi0
      simpa [minAccumRight] using h 0 (Nat.le_refl 0) (by simp)
    | cons b t =>
      rw [hmar] at hlen
      cases i with
      | zero =>
        simp only [minAccumRight, hmar, List.getD_cons_zero]
        refine le_min ?_ ?_
        · exact h 0 (Nat.le_refl 0) (by simp)
        · have hb : (minAccumRight rest).getD 0 0 = b := by rw [hmar]; rfl
          rw [← hb]
          refine minAccumRight_getD_ge rest 0 ?_ c ?_
          · rw [← minAccumRight_length rest, hmar]; simp
          · intro j _ hjl
            simpa using h (j + 1) (Nat.zero_le _)
              (by simpa using Nat.succ_lt_succ hjl)
      | succ i2 =>
        simp only [minAccumRight, hmar, List.getD_cons_succ]
        have hb : (minAccumRight rest).getD i2 0 = (b :: t).getD i2 0 := by
          rw [hmar]
        rw [← hb]
        refine minAccumRight_getD_ge rest i2 ?_ c ?_
        · simpa using Nat.lt_of_succ_lt_succ hi
        · intro j hj hjl
          simpa using h (j + 1) (Nat.succ_le_succ hj)
            (by simpa using Nat.succ_lt_succ hjl)

theorem clipAbove1_getD (l : List ℚ) {i : ℕ} (h : i < l.length) :
    (clipAbove1 l).getD i 0 =
      if 1 < l[i] then 1 else l[i] := by
  unfold clipAbove1
  rw [getD_map_of_lt _ l h]

/-- Core step-up bound: on an ascending p-value list with entries in
the unit interval, every Benjamini-Hochberg adjusted value dominates
the raw value at its position and stays inside the unit interval. -/
theorem bh_adjusted_ge (m : ℕ) (l : List ℚ) (hm : l.length = m)
    (hsort : l.Pairwise (· ≤ ·)) (hb : ∀ x ∈ l, 0 ≤ x ∧ x ≤ 1)
    (i : ℕ) (hi : i < l.length) :
    l.getD i 0 ≤ (clipAbove1 (minAccumRight (bhRaw m 0 l))).getD i 0 ∧
    0 ≤ (clipAbove1 (minAccumRight (bhRaw m 0 l))).getD i 0 ∧
    (clipAbove1 (minAccumRight (bhRaw m 0 l))).getD i 0 ≤ 1 := by
  have hxlen : (bhRaw m 0 l).length = l.length := bhRaw_length m 0 l
  have hmlen : (minAccumRight (bhRaw m 0 l)).length = l.length := by
    rw [minAccumRight_length, hxlen]
  have hisub : i < (minAccumRight (bhRaw m 0 l)).length := by
    rw [hmlen]; exact hi
  have hmem : ∀ j, j < l.length → l.getD j 0 ∈ l := by
    intro j hj
    rw [getD_eq_getElem_of_lt _ 0 hj]
    exact List.getElem_mem hj
  have hle : ∀ j1 j2, j1 ≤ j2 → j2 < l.length →
      l.getD j1 0 ≤ l.getD j2 0 := by
    intro j1 j2 hj hj2
    rcases Nat.lt_or_ge j1 j2 with hlt | hge
    · rw [getD_eq_getElem_of_lt _ 0 (lt_trans hlt hj2),
        getD_eq_getElem_of_lt _ 0 hj2]
      exact List.pairwise_iff_getElem.mp hsort j1 j2 _ hj2 hlt
    · have : j1 = j2 := Nat.le_antisymm hj hge
      rw [this]
  have hentry : ∀ j, i ≤ j → j < (bhRaw m 0 l).length →
      l.getD i 0 ≤ (bhRaw m 0 l).getD j 0 := by
    intro j hj hjl
    rw [hxlen] at hjl
    rw [bhRaw_getD m l 0 j hjl]
    have h1 : l.getD i 0 ≤ l.getD j 0 := hle i j hj hjl
    have h0 : (0 : ℚ) ≤ l.getD j 0 := (hb _ (hmem j hjl)).1
    have hj1 : ((j : ℚ) + 1) ≤ (m : ℚ) := by
      have : j + 1 ≤ m := by omega
      exact_mod_cast this
    have hjpos : (0 : ℚ) < (j : ℚ) + 1 := by positivity
    have hfac : (1 : ℚ) ≤ (m : ℚ) / ((j : ℚ) + 1) :=
      (one_le_div hjpos).mpr hj1
    calc l.getD i 0 ≤ l.getD j 0 := h1
      _ ≤ l.getD j 0 * ((m : ℚ) / ((j : ℚ) + 1)) :=
          le_mul_of_one_le_right h0 hfac
      _ = l.getD j 0 * (m : ℚ) / ((0 : ℚ) + (j : ℚ) + 1) := by
          rw [mul_div_assoc]
          norm_num
  have hnn : ∀ j, i ≤ j → j < (bhRaw m 0 l).length →
      (0 : ℚ) ≤ (bhRaw m 0 l).getD j 0 := by
    intro j _ hjl
    rw [hxlen] at hjl
    rw [bhRaw_getD m l 0 j hjl]
    have h0 : (0 : ℚ) ≤ l.getD j 0 := (hb _ (hmem j hjl)).1
    positivity
  have hilo : l.getD i 0 ≤ (minAccumRight (bhRaw m 0 l)).getD i 0 :=
    minAccumRight_getD_ge _ i (by rw [hxlen]; exact hi) _ hentry
  have hige : (0 : ℚ) ≤ (minAccumRight (bhRaw m 0 l)).getD i 0 :=
    minAccumRight_getD_ge _ i (by rw [hxlen]; exact hi) 0 hnn
  have hclip := clipAbove1_getD (minAccumRight (bhRaw m 0 l)) hisub
  rw [hclip]
  rw [getD_eq_getElem_of_lt _ 0 hisub] at hilo hige
  have hli : l.getD i 0 ≤ 1 := (hb _ (hmem i hi)).2
  by_cases hc : 1 < (minAccumRight (bhRaw m 0 l))[i]
  · rw [if_pos hc]
    exact ⟨hli, by norm_num, le_refl 1⟩
  · rw [if_neg hc]
    exact ⟨hilo, hige, le_of_not_lt hc⟩

theorem idxOf_lt_length {α : Type} [DecidableEq α] {k : α} :
    ∀ {l : List α}, k ∈ l → idxOf k l < l.length := by
  intro l
  induction l with
  | nil => intro h; simp at h
  | cons a rest ih =>
    intro hk
    by_cases ha : a = k
    · simp [idxOf, ha]
    · have hk2 : k ∈ rest := by
        rcases List.mem_cons.mp hk with h | h
        · exact absurd h.symm ha
        · exact h
      simp only [idxOf, if_neg ha, List.length_cons]
      exact Nat.succ_lt_succ (ih hk2)

theorem getD_idxOf_map {α β : Type} [DecidableEq α] (f : α → β) {k : α}
    (d : β) : ∀ {l : List α}, k ∈ l →
    (l.map f).getD (idxOf k l) d = f k := by
  intro l
  induction l with
  | nil => intro h; simp at h
  | cons a rest ih =>
    intro hk
    by_cases ha : a = k
    · simp [idxOf, ha]
    · have hk2 : k ∈ rest := by
        rcases List.mem_cons.mp hk with h | h
        · exact absurd h.symm ha
        · exact h
      simp only [idxOf, if_neg ha, List.map_cons, List.getD_cons_succ]
      exact ih hk2

theorem argsort_perm (ps : List ℚ) :
    (argsortStable ps).Perm (List.range ps.length) :=
  List.perm_insertionSort _ _

theorem mem_argsort {ps : List ℚ} {k : ℕ} (hk : k < ps.length) :
    k ∈ argsortStable ps :=
  ((argsort_perm ps).mem_iff).mpr (List.mem_range.mpr hk)

theorem argsort_length (ps : List ℚ) :
    (argsortStable ps).length = ps.length := by
  rw [(argsort_perm ps).length_eq, List.length_range]

theorem argsort_map_pairwise (ps : List ℚ) :
    ((argsortStable ps).map (fun i => ps.getD i 0)).Pairwise (· ≤ ·) := by
  rw [List.pairwise_map]
  haveI : IsTotal ℕ (fun i j => ps.getD i 0 ≤ ps.getD j 0) :=
    ⟨fun a b => le_total _ _⟩
  haveI : IsTrans ℕ (fun i j => ps.getD i 0 ≤ ps.getD j 0) :=
    ⟨fun a b c hab hbc => le_trans hab hbc⟩
  exact List.sorted_insertionSort _ _

theorem fdrcorrection_length (ps : List ℚ) :
    (fdrcorrection ps).length = ps.length := by
  simp [fdrcorrection]

/-- All Benjamini-Hochberg adjusted values of fdrcorrection dominate
their raw p-value and lie in the unit interval, positionally in the
original order. -/
theorem fdrcorrection_getD_bounds (ps : List ℚ)
    (hb : ∀ x ∈ ps, 0 ≤ x ∧ x ≤ 1) (k : ℕ) (hk : k < ps.length) :
    ps.getD k 0 ≤ (fdrcorrection ps).getD k 0 ∧
    0 ≤ (fdrcorrection ps).getD k 0 ∧
    (fdrcorrection ps).getD k 0 ≤ 1 := by
  have hkr : k < (List.range ps.length).length := by
    rw [List.length_range]; exact hk
  have hval : (fdrcorrection ps).getD k 0 =
      (clipAbove1 (minAccumRight (bhRaw ps.length 0
        ((argsortStable ps).map (fun i => ps.getD i 0))))).getD
        (idxOf k (argsortStable ps)) 0 := by
    unfold fdrcorrection
    rw [getD_map_of_lt _ _ hkr, List.getElem_range]
  have hsortlen : ((argsortStable ps).map (fun i => ps.getD i 0)).length
      = ps.length := by
    rw [List.length_map, argsort_length]
  have hmemk : k ∈ argsortStable ps := mem_argsort hk
  have hpos : idxOf k (argsortStable ps) <
      ((argsortStable ps).map (fun i => ps.getD i 0)).length := by
    rw [List.length_map]
    exact idxOf_lt_length hmemk
  have hat : ((argsortStable ps).map (fun i => ps.getD i 0)).getD
      (idxOf k (argsortStable ps)) 0 = ps.getD k 0 :=
    getD_idxOf_map _ 0 hmemk
  have hbs : ∀ x ∈ (argsortStable ps).map (fun i => ps.getD i 0),
      0 ≤ x ∧ x ≤ 1 := by
    intro x hx
    rcases List.mem_map.mp hx with ⟨i, hi, hxe⟩
    have hir : i < ps.length := by
      have := ((argsort_perm ps).mem_iff).mp hi
      exact List.mem_range.mp this
    have : x ∈ ps := by
      rw [← hxe, getD_eq_getElem_of_lt _ 0 hir]
      exact List.getElem_mem hir
    exact hb x this
  have := bh_adjusted_ge ps.length
    ((argsortStable ps).map (fun i => ps.getD i 0)) hsortlen
    (argsort_map_pairwise ps) hbs (idxOf k (argsortStable ps)) hpos
  rw [hat] at this
  rw [hval]
  exact this

/-! Lemmas about get_GO_df: per-gene adjustment, threshold filter and
the empty-candidate case. -/

theorem scoreAll_pval_bounds {G : Graph} {srd : DistKey → Option (List ℚ)}
    {N : ℕ} : ∀ {l : List (String × ℚ)}
    {pre : List (String × String × ℕ × ℚ × ℚ)},
    scoreAll G srd N l = Except.ok pre →
    ∀ r ∈ pre, 0 ≤ r.2.2.2.2 ∧ r.2.2.2.2 ≤ 1 := by
  intro l
  induction l with
  | nil =>
    intro pre h r hr
    simp only [scoreAll, Except.ok.injEq] at h
    subst h
    simp at hr
  | cons p rest ih =>
    intro pre h r hr
    unfold scoreAll at h
    rcases hsc : scoreCandidate G srd N p with e | r0
    · rw [hsc] at h; simp at h
    · rw [hsc] at h
      rcases hra : scoreAll G srd N rest with e | rs
      · rw [hra] at h; simp at h
      · rw [hra] at h
        simp only [Except.ok.injEq] at h
        subst h
        rcases List.mem_cons.mp hr with hr0 | hrs
        · subst hr0
          unfold scoreCandidate at hsc
          rcases hn : G.name p.1 with _ | des
          · rw [hn] at hsc; simp at hsc
          · rw [hn] at hsc
            rcases hp : P_sim srd p.2 (min ((G.adj p.1).length) N) with e | pv
            · rw [hp] at hsc; simp at hsc
            · rw [hp] at hsc
              simp only [Except.ok.injEq] at hsc
              subst hsc
              exact P_sim_ok_bounds hp
        · exact ih hra r hrs

/-- C2: at alpha_FDR = 1 (which keeps every row), the padj column of a
scored gene is fdrcorrection applied to that gene's own pval column
(the number of tests m inside fdrcorrection is the gene's candidate
count, not a global count), and every adjusted value dominates its raw
p-value and lies in the unit interval. -/
theorem get_GO_df_BH (G : Graph) (nv : String → Option (List (String × ℚ)))
    (srd : DistKey → Option (List ℚ)) (geneoi : String) (N : ℕ)
    (rows : List GORow)
    (h : get_GO_df G nv srd geneoi N 1 = Except.ok rows) :
    rows.map (fun r => r.padj) = fdrcorrection (rows.map (fun r => r.pval)) ∧
    ∀ r ∈ rows, r.pval ≤ r.padj ∧ 0 ≤ r.padj ∧ r.padj ≤ 1 := by
  unfold get_GO_df at h
  rcases hnv : nv geneoi with _ | sims
  · rw [hnv] at h; simp at h
  · rw [hnv] at h
    dsimp only at h
    rcases hsc : scoreAll G srd N (sims.filter (fun p =>
        ((G.adj geneoi).filter (fun x => G.isGO x)).contains p.1)) with e | pre
    · rw [hsc] at h; simp at h
    · rw [hsc] at h
      dsimp only at h
      rw [if_neg (lt_irrefl (1 : ℚ))] at h
      simp only [Except.ok.injEq] at h
      have hql : (fdrcorrection (pre.map (fun t => t.2.2.2.2))).length =
          pre.length := by
        rw [fdrcorrection_length, List.length_map]
      have hpadj : rows.map (fun r => r.padj) =
          fdrcorrection (pre.map (fun t => t.2.2.2.2)) := by
        rw [← h, List.map_map]
        exact List.map_snd_zip _ _ (le_of_eq hql)
      have hpval : rows.map (fun r => r.pval) =
          pre.map (fun t => t.2.2.2.2) := by
        rw [← h, List.map_map]
        have hcomp : (pre.zip (fdrcorrection (pre.map (fun t => t.2.2.2.2)))).map
            ((fun t : String × String × ℕ × ℚ × ℚ => t.2.2.2.2) ∘ Prod.fst) =
            pre.map (fun t => t.2.2.2.2) := by
          rw [← List.map_map]
          rw [List.map_fst_zip _ _ (le_of_eq hql.symm)]
        exact hcomp
      refine ⟨by rw [hpadj, hpval], ?_⟩
      intro r hr
      rw [← h] at hr
      rcases List.mem_iff_getElem.mp hr with ⟨i, hi, hri⟩
      have hzl : (pre.zip (fdrcorrection
          (pre.map (fun t => t.2.2.2.2)))).length = pre.length := by
        rw [List.length_zip, hql, Nat.min_self]
      have hip : i < pre.length := by
        rw [List.length_map, hzl] at hi
        exact hi
      have hips : i < (pre.map (fun t => t.2.2.2.2)).length := by
        rw [List.length_map]; exact hip
      have hql2 : i < (fdrcorrection (pre.map (fun t => t.2.2.2.2))).length := by
        rw [hql]; exact hip
      have hri2 : r =
          { GOdescription := pre[i].1,
            GOID := pre[i].2.1,
            Ncon_GO := pre[i].2.2.1,
            similarity := pre[i].2.2.2.1,
            pval := pre[i].2.2.2.2,
            padj := (fdrcorrection (pre.map (fun t => t.2.2.2.2)))[i] } := by
        rw [← hri]
        rw [List.getElem_map, List.getElem_zip]
      have hb : ∀ x ∈ pre.map (fun t => t.2.2.2.2), 0 ≤ x ∧ x ≤ 1 := by
        intro x hx
        rcases List.mem_map.mp hx with ⟨t, ht, hxe⟩
        rw [← hxe]
        exact scoreAll_pval_bounds hsc t ht
      have hbd := fdrcorrection_getD_bounds (pre.map (fun t => t.2.2.2.2))
        hb i hips
      rw [getD_eq_getElem_of_lt _ 0 hips, List.getElem_map] at hbd
      rw [getD_eq_getElem_of_lt _ 0 (by
        rw [fdrcorrection_length]; exact hips)] at hbd
      rw [hri2]
      exact hbd

/-- Closed instance of get_GO_df_BH on a two-candidate gene. -/
theorem get_GO_df_BH_witness :
    get_GO_df Gtwo nvTwo srd5 "G1s" 2 1 =
      Except.ok [⟨"d1", "GO:1", 1, 9/10, 0, 0⟩,
        ⟨"d2", "GO:2", 1, 1/10, 4/5, 4/5⟩] ∧
    ([⟨"d1", "GO:1", 1, 9/10, 0, 0⟩,
        (⟨"d2", "GO:2", 1, 1/10, 4/5, 4/5⟩ : GORow)].map (fun r => r.padj) =
      fdrcorrection ([⟨"d1", "GO:1", 1, 9/10, 0, 0⟩,
        (⟨"d2", "GO:2", 1, 1/10, 4/5, 4/5⟩ : GORow)].map (fun r => r.pval))) ∧
    ∀ r ∈ [⟨"d1", "GO:1", 1, 9/10, 0, 0⟩,
        (⟨"d2", "GO:2", 1, 1/10, 4/5, 4/5⟩ : GORow)],
      r.pval ≤ r.padj ∧ 0 ≤ r.padj ∧ r.padj ≤ 1 := by
  have h : get_GO_df Gtwo nvTwo srd5 "G1s" 2 1 =
      Except.ok [⟨"d1", "GO:1", 1, 9/10, 0, 0⟩,
        ⟨"d2", "GO:2", 1, 1/10, 4/5, 4/5⟩] := by
    with_unfolding_all decide
  have hb := get_GO_df_BH Gtwo nvTwo srd5 "G1s" 2 _ h
  exact ⟨h, hb.1, hb.2⟩

theorem get_GO_df_filter_lt (G : Graph)
    (nv : String → Option (List (String × ℚ)))
    (srd : DistKey → Option (List ℚ)) (geneoi : String) (N : ℕ)
    (t : ℚ) (ht : t < 1) :
    get_GO_df G nv srd geneoi N t =
      Except.map (List.filter (fun r => decide (r.padj < t)))
        (get_GO_df G nv srd geneoi N 1) := by
  unfold get_GO_df
  rcases hnv : nv geneoi with _ | sims
  · rfl
  · dsimp only
    rcases hsc : scoreAll G srd N (sims.filter (fun p =>
        ((G.adj geneoi).filter (fun x => G.isGO x)).contains p.1)) with e | pre
    · rfl
    · dsimp only
      rw [if_pos ht, if_neg (lt_irrefl (1 : ℚ))]
      rfl

/-- C5 (amended): with alpha_FDR < 1, get_GO_df keeps exactly the rows
whose q-value is strictly below alpha_FDR — a row whose q-value equals
alpha_FDR is dropped, not kept — while alpha_FDR = 1 keeps all rows
unfiltered (the hypothesis exhibits the unfiltered frame). -/
theorem get_GO_df_alpha_filter (G : Graph)
    (nv : String → Option (List (String × ℚ)))
    (srd : DistKey → Option (List ℚ)) (geneoi : String) (N : ℕ)
    (t : ℚ) (ht : t < 1) (rows : List GORow)
    (h : get_GO_df G nv srd geneoi N 1 = Except.ok rows) :
    get_GO_df G nv srd geneoi N t =
      Except.ok (rows.filter (fun r => decide (r.padj < t))) := by
  rw [get_GO_df_filter_lt G nv srd geneoi N t ht, h]
  rfl

/-- Closed instance of get_GO_df_alpha_filter: of the two candidate
rows with q-values 0 and 4/5, threshold 1/2 keeps exactly the first. -/
theorem get_GO_df_alpha_filter_witness :
    (1/2 : ℚ) < 1 ∧
    get_GO_df Gtwo nvTwo srd5 "G1s" 2 (1/2) =
      Except.ok [⟨"d1", "GO:1", 1, 9/10, 0, 0⟩] := by
  refine ⟨by norm_num, ?_⟩
  rw [get_GO_df_alpha_filter Gtwo nvTwo srd5 "G1s" 2 (1/2) (by norm_num)
    [⟨"d1", "GO:1", 1, 9/10, 0, 0⟩, ⟨"d2", "GO:2", 1, 1/10, 4/5, 4/5⟩]
    (by with_unfolding_all decide)]
  with_unfolding_all decide

/-- C5 counterexample: a row whose adjusted q-value equals alpha_FDR
is dropped, not kept — with the sole candidate's padj = 1/2 and
alpha_FDR = 1/2 the returned frame is empty, while the alpha_FDR = 1
run exhibits that row with padj exactly 1/2. -/
theorem get_GO_df_tie_dropped_counterexample :
    get_GO_df Gpair nvHalf srd01 "G1s" 1 (1/2) = Except.ok [] ∧
    get_GO_df Gpair nvHalf srd01 "G1s" 1 1 =
      Except.ok [⟨"d1", "GO:1", 1, 1/2, 1/2, 1/2⟩] :=
  ⟨by with_unfolding_all decide, by with_unfolding_all decide⟩

/-- C9: a gene that is present in the replicate embedding but whose
neighbour set contains no GO node scores without error and contributes
exactly zero rows at any significance threshold. -/
theorem get_GO_df_empty_candidates (G : Graph)
    (nv : String → Option (List (String × ℚ)))
    (srd : DistKey → Option (List ℚ)) (geneoi : String) (N : ℕ) (α : ℚ)
    (sims : List (String × ℚ)) (hemb : nv geneoi = some sims)
    (hcand : (G.adj geneoi).filter (fun x => G.isGO x) = []) :
    get_GO_df G nv srd geneoi N α = Except.ok [] := by
  unfold get_GO_df
  rw [hemb]
  dsimp only
  rw [hcand]
  have hs : sims.filter (fun p => List.contains ([] : List String) p.1)
      = [] := by
    simp [List.contains]
  rw [hs]
  dsimp only [scoreAll]
  by_cases hα : α < 1
  · rw [if_pos hα]
    rfl
  · rw [if_neg hα]
    rfl

/-- Closed instance of get_GO_df_empty_candidates on an isolated
gene. -/
theorem get_GO_df_empty_candidates_witness :
    nvNone "G1s" = some [] ∧
    (Gnone.adj "G1s").filter (fun x => Gnone.isGO x) = [] ∧
    get_GO_df Gnone nvNone srd01 "G1s" 0 1 = Except.ok [] :=
  ⟨by decide, by decide,
    get_GO_df_empty_candidates Gnone nvNone srd01 "G1s" 0 1 []
      (by decide) (by decide)⟩

/-! Lemmas about the cross-replicate statistics columns. -/

/-- C3 counterexample: for a pair present in two of three replicates
with values 0 and 2, the code's sem (squared) is the sample variance 2
divided by Nreps = 3, not by n_present = 2 as the claim states, and
the two disagree. -/
theorem sem_divisor_counterexample :
    (aggStats 3 mrowPartial).semSimSq = some (2/3) ∧
    specSemSq mrowPartial.sims = some 1 ∧
    ((2 : ℚ)/3) ≠ 1 :=
  ⟨by with_unfolding_all decide, by with_unfolding_all decide,
    by norm_num⟩

/-- C3 (amended): each sem column is the standard deviation over the
present replicates divided by sqrt(Nreps) — the divisor is always
Nreps, never n_present — so the claimed formula stdev/sqrt(n_present)
holds exactly when the pair is present in all Nreps replicates, as
hypothesised here; the mean columns are the means over the present
replicates only (absent values are not treated as zero). -/
theorem aggStats_sem_full_presence (Nreps : ℕ) (m : MergedRow)
    (hs : (presentVals m.sims).length = Nreps)
    (hp : (presentVals m.pvals).length = Nreps)
    (hq : (presentVals m.padjs).length = Nreps) :
    (aggStats Nreps m).semSimSq = specSemSq m.sims ∧
    (aggStats Nreps m).semPvalSq = specSemSq m.pvals ∧
    (aggStats Nreps m).semPadjSq = specSemSq m.padjs ∧
    (aggStats Nreps m).meanSim = nanmean m.sims ∧
    (aggStats Nreps m).meanPval = nanmean m.pvals ∧
    (aggStats Nreps m).meanPadj = nanmean m.padjs := by
  refine ⟨?_, ?_, ?_, rfl, rfl, rfl⟩
  · simp only [aggStats, semSq, specSemSq, hs]
  · simp only [aggStats, semSq, specSemSq, hp]
  · simp only [aggStats, semSq, specSemSq, hq]

/-- Closed instance of aggStats_sem_full_presence on a fully present
pair over two replicates. -/
theorem aggStats_sem_full_presence_witness :
    (presentVals mrowFull.sims).length = 2 ∧
    ((aggStats 2 mrowFull).semSimSq = specSemSq mrowFull.sims ∧
     (aggStats 2 mrowFull).semPvalSq = specSemSq mrowFull.pvals ∧
     (aggStats 2 mrowFull).semPadjSq = specSemSq mrowFull.padjs ∧
     (aggStats 2 mrowFull).meanSim = nanmean mrowFull.sims ∧
     (aggStats 2 mrowFull).meanPval = nanmean mrowFull.pvals ∧
     (aggStats 2 mrowFull).meanPadj = nanmean mrowFull.padjs) :=
  ⟨by with_unfolding_all decide,
    aggStats_sem_full_presence 2 mrowFull (by with_unfolding_all decide)
      (by with_unfolding_all decide) (by with_unfolding_all decide)⟩

/-- C10: a (gene, GO) pair present in exactly one replicate has
missing sem entries (the NaN-skipping pandas std with ddof = 1 of a
single observation is NaN, so sem = NaN/sqrt(Nreps) is missing), while
each mean column equals the single present value. -/
theorem aggStats_single_presence (Nreps : ℕ) (m : MergedRow) (a b c : ℚ)
    (hs : presentVals m.sims = [a]) (hp : presentVals m.pvals = [b])
    (hq : presentVals m.padjs = [c]) :
    (aggStats Nreps m).meanSim = some a ∧
    (aggStats Nreps m).semSimSq = none ∧
    (aggStats Nreps m).meanPval = some b ∧
    (aggStats Nreps m).semPvalSq = none ∧
    (aggStats Nreps m).meanPadj = some c ∧
    (aggStats Nreps m).semPadjSq = none := by
  unfold aggStats nanmean semSq nanstdSq
  rw [hs, hp, hq]
  norm_num

/-- Closed instance of aggStats_single_presence on a pair present in
one of two replicates. -/
theorem aggStats_single_presence_witness :
    presentVals mrowSingle.sims = [1/2] ∧
    ((aggStats 2 mrowSingle).meanSim = some (1/2) ∧
     (aggStats 2 mrowSingle).semSimSq = none ∧
     (aggStats 2 mrowSingle).meanPval = some (1/3) ∧
     (aggStats 2 mrowSingle).semPvalSq = none ∧
     (aggStats 2 mrowSingle).meanPadj = some (1/4) ∧
     (aggStats 2 mrowSingle).semPadjSq = none) :=
  ⟨by with_unfolding_all decide,
    aggStats_single_presence 2 mrowSingle (1/2) (1/3) (1/4)
      (by with_unfolding_all decide) (by with_unfolding_all decide)
      (by with_unfolding_all decide)⟩

/-! Lemmas about the error policy of the replicate loop. -/

/-- C4 counterexample: an input-list gene absent from the replicate
embedding (the UnknownGeneError condition, a KeyError in the source)
does not abort the run: generate_output succeeds and returns the other
gene's row, silently omitting the affected gene. -/
theorem missing_gene_not_fatal_counterexample :
    nvMiss "G2s" = none ∧
    G2g.hgnc "G2s" = some "H2" ∧
    generate_output G2g ["H1", "H2"] [nvMiss] srd01 1 =
      Except.ok
        [{ key := { HGNC := "H1", Symbol := "G1s", GOdescription := "d1",
                    GOID := "GO:1", Ncon_gene := 1, Ncon_GO := 2 },
           meanSim := some (1/2), semSimSq := none,
           meanPval := some (1/2), semPvalSq := none,
           meanPadj := some (1/2), semPadjSq := none }] :=
  ⟨by decide, by decide, by with_unfolding_all decide⟩

/-- C4 (amended): a KeyError raised while scoring one graph node — a
gene absent from the replicate embedding, a node without the HGNC
attribute, or a bucket key absent from the null distribution,
including the degree-0 case which yields the key d-inf instead of
raising any DomainError — is caught by the loop's except KeyError:
pass: the node is silently skipped and the replicate table equals the
table of the remaining nodes, the run continuing for every other gene;
only non-KeyError exceptions (such as the ZeroDivisionError of an
empty bucket sample) abort the run. -/
theorem repTable_keyError_skips (G : Graph)
    (nv : String → Option (List (String × ℚ)))
    (srd : DistKey → Option (List ℚ)) (hgncid : List String) (α : ℚ)
    (n : String)
    (h : scoreNode G nv srd hgncid α n = Except.error PyErr.keyError) :
    ∀ l1 l2, repTable G nv srd hgncid α (l1 ++ n :: l2) =
      repTable G nv srd hgncid α (l1 ++ l2) := by
  intro l1
  induction l1 with
  | nil =>
    intro l2
    show repTable G nv srd hgncid α (n :: l2) =
      repTable G nv srd hgncid α l2
    simp only [repTable]
    rw [h]
  | cons a t ih =>
    intro l2
    show repTable G nv srd hgncid α (a :: (t ++ n :: l2)) =
      repTable G nv srd hgncid α (a :: (t ++ l2))
    simp only [repTable]
    rw [ih l2]

/-- Closed instance of repTable_keyError_skips: dropping the
embedding-missing gene from the node list leaves the replicate table
unchanged. -/
theorem repTable_keyError_skips_witness :
    scoreNode G2g nvMiss srd01 ["H1", "H2"] 1 "G2s" =
      Except.error PyErr.keyError ∧
    repTable G2g nvMiss srd01 ["H1", "H2"] 1 (["G1s"] ++ "G2s" :: ["GO:1"]) =
      repTable G2g nvMiss srd01 ["H1", "H2"] 1 (["G1s"] ++ ["GO:1"]) :=
  ⟨by with_unfolding_all decide,
    repTable_keyError_skips G2g nvMiss srd01 ["H1", "H2"] 1 "G2s"
      (by with_unfolding_all decide) ["G1s"] ["GO:1"]⟩

/-! Lemmas about the final sort order. -/

theorem lexStep_trans {α : Type} [LinearOrder α] {x y z : α}
    {r s t : Bool} (hrst : r = true → s = true → t = true) :
    lexStep x y r = true → lexStep y z s = true → lexStep x z t = true := by
  unfold lexStep
  intro h1 h2
  rcases lt_trichotomy x y with hxy | hxy | hxy
  · rcases lt_trichotomy y z with hyz | hyz | hyz
    · rw [if_pos (lt_trans hxy hyz)]
    · subst hyz
      rw [if_pos hxy]
    · rw [if_neg (asymm hyz), if_pos hyz] at h2
      exact absurd h2 (by simp)
  · subst hxy
    rw [if_neg (lt_irrefl x), if_neg (lt_irrefl x)] at h1
    rcases lt_trichotomy x z with hxz | hxz | hxz
    · rw [if_pos hxz]
    · subst hxz
      rw [if_neg (lt_irrefl x), if_neg (lt_irrefl x)] at h2
      rw [if_neg (lt_irrefl x), if_neg (lt_irrefl x)]
      exact hrst h1 h2
    · rw [if_neg (asymm hxz), if_pos hxz] at h2
      exact absurd h2 (by simp)
  · rw [if_neg (asymm hxy), if_pos hxy] at h1
    exact absurd h1 (by simp)

theorem lexStep_total {α : Type} [LinearOrder α] {x y : α} {r s : Bool}
    (h : r = true ∨ s = true) :
    lexStep x y r = true ∨ lexStep y x s = true := by
  unfold lexStep
  rcases lt_trichotomy x y with hxy | hxy | hxy
  · left
    rw [if_pos hxy]
  · subst hxy
    rw [if_neg (lt_irrefl x), if_neg (lt_irrefl x),
      if_neg (lt_irrefl x), if_neg (lt_irrefl x)]
    exact h
  · right
    rw [if_pos hxy]

theorem finalLE_trans (hgncid : List String) : ∀ (a b c : AggRow),
    finalLE hgncid a b = true → finalLE hgncid b c = true →
    finalLE hgncid a c = true := by
  intro a b c h1 h2
  unfold finalLE at h1 h2 ⊢
  refine lexStep_trans (fun hr hs => ?_) h1 h2
  refine lexStep_trans (fun hr2 hs2 => ?_) hr hs
  refine lexStep_trans (fun hr3 hs3 => ?_) hr2 hs2
  exact decide_eq_true
    (le_trans (of_decide_eq_true hr3) (of_decide_eq_true hs3))

theorem finalLE_total (hgncid : List String) : ∀ (a b : AggRow),
    finalLE hgncid a b = true ∨ finalLE hgncid b a = true := by
  intro a b
  unfold finalLE
  refine lexStep_total (lexStep_total (lexStep_total ?_))
  rcases le_total a.key.GOdescription b.key.GOdescription with h | h
  · exact Or.inl (decide_eq_true h)
  · exact Or.inr (decide_eq_true h)

/-- C6: every successful run's final table is sorted by the
lexicographic key of finalLE: first the gene's position in the
original input gene list (an ordered categorical of first occurrences,
not a lexicographic or numeric order of identifiers), then the mean
q-value ascending with missing means last, then the GO description. -/
theorem generate_output_sorted (G : Graph) (hgncid : List String)
    (nvs : List (String → Option (List (String × ℚ))))
    (srd : DistKey → Option (List ℚ)) (α : ℚ) (out : List AggRow)
    (h : generate_output G hgncid nvs srd α = Except.ok out) :
    out.Pairwise (fun a b => finalLE hgncid a b = true) := by
  unfold generate_output at h
  rcases ht : allRepTables G srd hgncid α nvs with e | tables
  · rw [ht] at h
    simp at h
  · rw [ht] at h
    dsimp only at h
    simp only [Except.ok.injEq] at h
    subst h
    haveI : IsTotal AggRow (fun a b => finalLE hgncid a b = true) :=
      ⟨finalLE_total hgncid⟩
    haveI : IsTrans AggRow (fun a b => finalLE hgncid a b = true) :=
      ⟨finalLE_trans hgncid⟩
    exact List.sorted_insertionSort _ _

/-- Closed instance of generate_output_sorted: with the input list
H2, H1 the output groups the H2 gene's rows first, then H1, in a
finalLE-sorted table. -/
theorem generate_output_sorted_witness :
    generate_output G2g ["H2", "H1"] [nvBoth] srd01 1 =
      Except.ok
        [⟨⟨"H2", "G2s", "d1", "GO:1", 1, 2⟩, some (1/4), none,
           some (1/2), none, some (1/2), none⟩,
         ⟨⟨"H1", "G1s", "d1", "GO:1", 1, 2⟩, some (1/2), none,
           some (1/2), none, some (1/2), none⟩] ∧
    List.Pairwise (fun a b => finalLE ["H2", "H1"] a b = true)
        [⟨⟨"H2", "G2s", "d1", "GO:1", 1, 2⟩, some (1/4), none,
           some (1/2), none, some (1/2), none⟩,
         (⟨⟨"H1", "G1s", "d1", "GO:1", 1, 2⟩, some (1/2), none,
           some (1/2), none, some (1/2), none⟩ : AggRow)] :=
  ⟨by with_unfolding_all decide,
    generate_output_sorted G2g ["H2", "H1"] [nvBoth] srd01 1 _
      (by with_unfolding_all decide)⟩

/-! Lemmas about threshold filtering through the whole aggregation,
for a single replicate. -/

theorem scoreNode_alpha_filter (G : Graph)
    (nv : String → Option (List (String × ℚ)))
    (srd : DistKey → Option (List ℚ)) (hgncid : List String)
    {t : ℚ} (ht : t < 1) (n : String) :
    scoreNode G nv srd hgncid t n =
      Except.map (List.filter (fun r : RepRow => decide (r.padj < t)))
        (scoreNode G nv srd hgncid 1 n) := by
  unfold scoreNode
  rcases hh : G.hgnc n with _ | hid
  · rfl
  · dsimp only
    by_cases hc : hgncid.contains hid = true
    · rw [if_pos hc, if_pos hc,
        get_GO_df_filter_lt G nv srd n ((G.adj n).length) t ht]
      rcases hg : get_GO_df G nv srd n ((G.adj n).length) 1 with e | rows
      · rfl
      · dsimp only [Except.map]
        rw [List.filter_map]
        rfl
    · rw [if_neg hc, if_neg hc]
      rfl

theorem repTable_alpha_filter (G : Graph)
    (nv : String → Option (List (String × ℚ)))
    (srd : DistKey → Option (List ℚ)) (hgncid : List String)
    {t : ℚ} (ht : t < 1) : ∀ l : List String,
    repTable G nv srd hgncid t l =
      Except.map (List.filter (fun r : RepRow => decide (r.padj < t)))
        (repTable G nv srd hgncid 1 l) := by
  intro l
  induction l with
  | nil => rfl
  | cons n rest ih =>
    simp only [repTable]
    rw [scoreNode_alpha_filter G nv srd hgncid ht n, ih]
    rcases hsn : scoreNode G nv srd hgncid 1 n with e | rows
    · rcases e <;> rcases hrt : repTable G nv srd hgncid 1 rest with e2 | acc <;>
        simp [Except.map]
    · rcases hrt : repTable G nv srd hgncid 1 rest with e2 | acc
      · simp [Except.map]
      · simp only [Except.map]
        rw [List.filter_append]

theorem initMerged_filter_comm (t : ℚ) (l : List RepRow) :
    (initMerged (l.filter (fun r => decide (r.padj < t)))).map (aggStats 1) =
      ((initMerged l).map (aggStats 1)).filter (meanPadjBelow t) := by
  unfold initMerged
  rw [List.map_map, List.map_map, List.filter_map]
  congr 1
  apply List.filter_congr
  intro r _
  simp only [Function.comp]
  show decide (r.padj < t) = meanPadjBelow t (aggStats 1
    { key := r.key, sims := [some r.similarity],
      pvals := [some r.pval], padjs := [some r.padj] })
  unfold meanPadjBelow aggStats nanmean presentVals
  simp only [List.filterMap_cons, List.filterMap_nil, id]
  norm_num

/-- C8 (amended): for a single replicate (Nreps = 1), running the
aggregation at alpha_FDR = 1 and then manually filtering the final
rows at a threshold t < 1 on the mean q-value yields the same row set
(a permutation) as running the aggregation at alpha_FDR = t directly;
with several replicates the two row sets can differ, since the
per-replicate filter changes which replicates contribute to each
pair's mean. -/
theorem generate_output_filter_single_rep (G : Graph)
    (hgncid : List String) (nv : String → Option (List (String × ℚ)))
    (srd : DistKey → Option (List ℚ)) (t : ℚ) (ht : t < 1)
    (out1 outT : List AggRow)
    (h1 : generate_output G hgncid [nv] srd 1 = Except.ok out1)
    (hT : generate_output G hgncid [nv] srd t = Except.ok outT) :
    outT.Perm (out1.filter (meanPadjBelow t)) := by
  rcases hrt : repTable G nv srd hgncid 1 G.nodes with e | table1
  · have hA : allRepTables G srd hgncid 1 [nv] = Except.error e := by
      simp only [allRepTables, hrt]
    unfold generate_output at h1
    rw [hA] at h1
    simp at h1
  · have hrtT : repTable G nv srd hgncid t G.nodes =
        Except.ok (table1.filter (fun r => decide (r.padj < t))) := by
      rw [repTable_alpha_filter G nv srd hgncid ht, hrt]
      rfl
    have hA1 : allRepTables G srd hgncid 1 [nv] =
        Except.ok [table1.insertionSort (fun a b => repLE hgncid a b = true)] := by
      simp only [allRepTables, hrt]
    have hAT : allRepTables G srd hgncid t [nv] =
        Except.ok [(table1.filter (fun r =>
          decide (r.padj < t))).insertionSort
            (fun a b => repLE hgncid a b = true)] := by
      simp only [allRepTables, hrtT]
    unfold generate_output at h1 hT
    rw [hA1] at h1
    rw [hAT] at hT
    dsimp only [mergeAll] at h1 hT
    simp only [Except.ok.injEq] at h1 hT
    subst h1
    subst hT
    have hsortT := List.perm_insertionSort
      (fun a b : AggRow => finalLE hgncid a b = true)
      ((initMerged ((table1.filter (fun r =>
        decide (r.padj < t))).insertionSort
          (fun a b => repLE hgncid a b = true))).map
        (aggStats (List.length [nv])))
    have hsort1 := List.perm_insertionSort
      (fun a b : AggRow => finalLE hgncid a b = true)
      ((initMerged (table1.insertionSort
          (fun a b => repLE hgncid a b = true))).map
        (aggStats (List.length [nv])))
    have hlen1 : List.length [nv] = 1 := rfl
    rw [hlen1] at hsortT hsort1
    rw [hlen1]
    have hpermT : ((initMerged ((table1.filter (fun r =>
        decide (r.padj < t))).insertionSort
          (fun a b => repLE hgncid a b = true))).map (aggStats 1)).Perm
        ((initMerged (table1.filter (fun r =>
          decide (r.padj < t)))).map (aggStats 1)) := by
      unfold initMerged
      exact ((List.perm_insertionSort _ _).map _).map _
    have hperm1 : ((initMerged (table1.insertionSort
        (fun a b => repLE hgncid a b = true))).map (aggStats 1)).Perm
        ((initMerged table1).map (aggStats 1)) := by
      unfold initMerged
      exact ((List.perm_insertionSort _ _).map _).map _
    have hcomm := initMerged_filter_comm t table1
    refine (hsortT.trans (hpermT.trans ?_))
    rw [hcomm]
    exact (List.Perm.filter _ (hsort1.trans hperm1)).symm

/-- C8 counterexample: with two replicates whose q-values for the sole
(gene, GO) pair are 0 and 4/5, running at alpha_FDR = 3/10 keeps the
pair (only the first replicate contributes, mean q-value 0), while
running at alpha_FDR = 1 and filtering the final rows at 3/10 drops it
(the mean q-value over both replicates is 2/5): the two row sets
differ. -/
theorem aggregator_filter_counterexample :
    generate_output Gpair ["H1"] [nvHi, nvLo] srd5 (3/10) =
      Except.ok
        [{ key := { HGNC := "H1", Symbol := "G1s", GOdescription := "d1",
                    GOID := "GO:1", Ncon_gene := 1, Ncon_GO := 1 },
           meanSim := some (9/10), semSimSq := none,
           meanPval := some 0, semPvalSq := none,
           meanPadj := some 0, semPadjSq := none }] ∧
    Except.map (List.filter (meanPadjBelow (3/10)))
        (generate_output Gpair ["H1"] [nvHi, nvLo] srd5 1) =
      Except.ok [] :=
  ⟨by with_unfolding_all decide, by with_unfolding_all decide⟩

/-- Closed instance of generate_output_filter_single_rep on a
one-replicate, two-candidate run at threshold 1/2. -/
theorem generate_output_filter_single_rep_witness :
    (1/2 : ℚ) < 1 ∧
    generate_output Gtwo ["H1"] [nvTwo] srd5 (1/2) =
      Except.ok
        [⟨⟨"H1", "G1s", "d1", "GO:1", 2, 1⟩, some (9/10), none,
           some 0, none, some 0, none⟩] ∧
    List.Perm
      [(⟨⟨"H1", "G1s", "d1", "GO:1", 2, 1⟩, some (9/10), none,
         some 0, none, some 0, none⟩ : AggRow)]
      (List.filter (meanPadjBelow (1/2))
        [⟨⟨"H1", "G1s", "d1", "GO:1", 2, 1⟩, some (9/10), none,
           some 0, none, some 0, none⟩,
         (⟨⟨"H1", "G1s", "d2", "GO:2", 2, 1⟩, some (1/10), none,
           some (4/5), none, some (4/5), none⟩ : AggRow)]) :=
  ⟨by norm_num, by with_unfolding_all decide,
    generate_output_filter_single_rep Gtwo ["H1"] nvTwo srd5 (1/2)
      (by norm_num) _ _ (by with_unfolding_all decide)
      (by with_unfolding_all decide)⟩

/-! Faithfulness of the fuel-structured logarithm. -/

theorem flog2Aux_eq_log2 : ∀ (fuel n : ℕ), n ≤ fuel →
    flog2Aux fuel n = Nat.log2 n
  | 0, n, h => by
    have hn : n = 0 := Nat.le_zero.mp h
    subst hn
    rw [Nat.log2]
    simp [flog2Aux]
  | fuel + 1, n, h => by
    by_cases h2 : n < 2
    · simp only [flog2Aux]
      rw [if_pos h2, Nat.log2, if_neg (by omega)]
    · simp only [flog2Aux]
      rw [if_neg h2, Nat.log2, if_pos (by omega)]
      have hd : n / 2 ≤ fuel := by omega
      rw [flog2Aux_eq_log2 fuel (n / 2) hd]

theorem flog2_eq_log2 (n : ℕ) : flog2 n = Nat.log2 n :=
  flog2Aux_eq_log2 n n (Nat.le_refl n)

end Genewalk
